import Mathlib

/-!
Verification of the heuristic task-extraction core of the time-management app.

The source component is the `TaskParser` class: text preprocessing
(character whitelist, whitespace normalization, newline split, length filter),
task-line classification by keyword containment, field extractors
(subject, due date, priority, estimated time, task type) and the
title/description synthesizer.  Strings are modelled as `List Char`,
dates as milliseconds since the epoch (`Int`), and the regular
expressions of the source as explicit scanning functions with the
leftmost-match, greedy semantics of JavaScript regexes.
-/

namespace TaskParser

/-! ### Character classes, with JavaScript regex/string semantics -/

/-- Code points matched by the JavaScript regex class backslash-s
(whitespace), as used by the whitespace-normalization replace, by
`String.prototype.trim`, and by the backslash-s parts of the patterns. -/
def jsSpaceN (n : Nat) : Bool :=
  n == 9 || n == 10 || n == 11 || n == 12 || n == 13 || n == 32 || n == 160 ||
  n == 5760 || n == 8192 || n == 8193 || n == 8194 || n == 8195 || n == 8196 ||
  n == 8197 || n == 8198 || n == 8199 || n == 8200 || n == 8201 || n == 8202 ||
  n == 8232 || n == 8233 || n == 8239 || n == 8287 || n == 12288 || n == 65279

def isJsSpace (c : Char) : Bool := jsSpaceN c.toNat

/-- The characters matched by the newline-split regex class. -/
def isNl (c : Char) : Bool := c == Char.ofNat 10 || c == Char.ofNat 13

/-- JavaScript regex class backslash-w: ASCII letters, digits, underscore. -/
def isWordChar (c : Char) : Bool := c.isAlpha || c.isDigit || c == Char.ofNat 95

/-- The punctuation whitelisted by the preprocessing character filter. -/
def punctChars : List Char :=
  ['-', '.', ',', '!', '?', ':', ';', '(', ')', '[', ']',
   Char.ofNat 123, Char.ofNat 125, Char.ofNat 39, Char.ofNat 34]

/-- A character kept unchanged by the preprocessing filter. -/
def whitelisted (c : Char) : Bool := isWordChar c || isJsSpace c || punctChars.contains c

/-- ASCII model of `String.prototype.toLowerCase` per character. -/
def jsToLower (c : Char) : Char :=
  if 65 ≤ c.toNat ∧ c.toNat ≤ 90 then Char.ofNat (c.toNat + 32) else c

/-- ASCII model of `String.prototype.toUpperCase` per character. -/
def jsToUpper (c : Char) : Char :=
  if 97 ≤ c.toNat ∧ c.toNat ≤ 122 then Char.ofNat (c.toNat - 32) else c

/-- `line.toLowerCase()`. -/
def lowerL (l : List Char) : List Char := l.map jsToLower

/-! ### Substring containment (`String.prototype.includes`) -/

def listStartsWith : List Char → List Char → Bool
  | _, [] => true
  | [], _ :: _ => false
  | a :: as, b :: bs => a == b && listStartsWith as bs

/-- `hay.includes(needle)`. -/
def containsSub : List Char → List Char → Bool
  | [], pat => pat.isEmpty
  | a :: t, pat => listStartsWith (a :: t) pat || containsSub t pat

/-! ### Preprocessor -/

/-- First replace of `preprocessText`: every character outside the
whitelist becomes a single space. -/
def cleanChars (l : List Char) : List Char :=
  l.map fun c => if whitelisted c then c else ' '

/-- Second replace of `preprocessText`: each maximal run of whitespace
becomes a single space. -/
def collapseWs : List Char → List Char
  | [] => []
  | [c] => if isJsSpace c then [' '] else [c]
  | a :: b :: t =>
    if isJsSpace a then
      (if isJsSpace b then collapseWs (b :: t) else ' ' :: collapseWs (b :: t))
    else a :: collapseWs (b :: t)

/-- `String.prototype.trim`. -/
def trimChars (l : List Char) : List Char :=
  List.rdropWhile isJsSpace (l.dropWhile isJsSpace)

/-- `text.split` on runs of newline characters, keeping empty boundary
segments, like the JavaScript `split` with a regex separator. -/
def splitNl : List Char → List (List Char)
  | [] => [[]]
  | [c] => if isNl c then [[], []] else [[c]]
  | a :: b :: t =>
    if isNl a then
      (if isNl b then splitNl (b :: t) else [] :: splitNl (b :: t))
    else
      match splitNl (b :: t) with
      | [] => [[a]]
      | s :: ss => (a :: s) :: ss

/-- `preprocessText`: clean, normalize whitespace, trim, split into lines,
trim each line and drop lines of length at most 3. -/
def preprocessText (text : List Char) : List (List Char) :=
  (((splitNl (trimChars (collapseWs (cleanChars text)))).map trimChars).filter
    fun l => 3 < l.length)


/-! ### Dates as milliseconds since the epoch -/

def msPerDay : Int := 86400000

/-- Days since 1970-01-01 of the Gregorian date `y-m-d` (`m` is 1-based). -/
def daysFromCivil (y m d : Int) : Int :=
  let y1 := if m ≤ 2 then y - 1 else y
  let era := Int.fdiv y1 400
  let yoe := y1 - era * 400
  let mp := if 2 < m then m - 3 else m + 9
  let doy := Int.fdiv (153 * mp + 2) 5 + d - 1
  let doe := yoe * 365 + Int.fdiv yoe 4 - Int.fdiv yoe 100 + doy
  era * 146097 + doe - 719468

/-- Year of the Gregorian date that is `z` days after 1970-01-01. -/
def civilYearFromDays (z : Int) : Int :=
  let z1 := z + 719468
  let era := Int.fdiv z1 146097
  let doe := z1 - era * 146097
  let yoe := Int.fdiv (doe - Int.fdiv doe 1460 + Int.fdiv doe 36524 - Int.fdiv doe 146096) 365
  let y := yoe + era * 400
  let doy := doe - (365 * yoe + Int.fdiv yoe 4 - Int.fdiv yoe 100)
  let mp := Int.fdiv (5 * doy + 2) 153
  let m := if mp < 10 then mp + 3 else mp - 9
  if m ≤ 2 then y + 1 else y

/-- `date.getFullYear()`. -/
def getFullYear (ms : Int) : Int := civilYearFromDays (Int.fdiv ms msPerDay)

/-- `date.getDay()`: 0 is Sunday; 1970-01-01 was a Thursday (4). -/
def getDay (ms : Int) : Int := (Int.fdiv ms msPerDay + 4) % 7

/-- `new Date(year, month, day).getTime()` with the JavaScript
normalizations: a year argument 0..99 means 1900+year, and out-of-range
month/day arguments roll over into adjacent years/months. -/
def mkDateMs (y m d : Int) : Int :=
  let y1 := if 0 ≤ y ∧ y ≤ 99 then y + 1900 else y
  let y2 := y1 + Int.fdiv m 12
  let m2 := Int.emod m 12
  (daysFromCivil y2 (m2 + 1) 1 + (d - 1)) * msPerDay


/-- `getDaysUntilWeekday`: days from now until the next occurrence of
the target weekday, rolling a full week when today is that weekday. -/
def getDaysUntilWeekday (now target : Int) : Int :=
  if (target - getDay now + 7) % 7 = 0 then 7
  else (target - getDay now + 7) % 7

/-! ### Regex matchers of the due-date, time and number extractors -/

/-- Digits of a captured group, as the number `parseInt` yields. -/
def parseNatDigits (l : List Char) : Nat :=
  l.foldl (fun n c => n * 10 + (c.toNat - 48)) 0

/-- Attempt of the pattern "in (digits) day" at the start of `l`. -/
def inDaysAt (l : List Char) : Option Nat :=
  if listStartsWith l ("in ".toList) then
    let r := l.drop 3
    let ds := r.takeWhile Char.isDigit
    if ds.isEmpty then none
    else if listStartsWith (r.dropWhile Char.isDigit) (" day".toList) then
      some (parseNatDigits ds)
    else none
  else none

/-- Leftmost match of the "in N day(s)" pattern. -/
def matchInDays : List Char → Option Nat
  | [] => none
  | c :: t =>
    match inDaysAt (c :: t) with
    | some n => some n
    | none => matchInDays t

/-- After "digits sep" has been consumed: one or two more digits, then an
optional "sep + 2-to-4 digits" year group, greedy like the regex. -/
def dateTail (sep : Char) (l : List Char) : Option (Nat × Option Nat) :=
  let ds := l.takeWhile Char.isDigit
  if ds.isEmpty then none
  else
    let d2 := ds.take 2
    let rest := l.drop d2.length
    let yr :=
      match rest with
      | s :: r2 =>
        if s == sep then
          (let ys := r2.takeWhile Char.isDigit
           if 2 ≤ ys.length then some (parseNatDigits (ys.take 4)) else none)
        else none
      | [] => none
    some (parseNatDigits d2, yr)

/-- Attempt of a numeric date pattern (1-2 digits, `sep`, 1-2 digits,
optional year group) at the start of `l`, with the greedy backtracking
of the regex on the first digit group. -/
def dateAt (sep : Char) : List Char → Option (Nat × Nat × Option Nat)
  | a :: b :: r2 =>
    if a.isDigit then
      let try2 :=
        if b.isDigit then
          match r2 with
          | s :: r3 =>
            if s == sep then (dateTail sep r3).map fun p => (parseNatDigits [a, b], p)
            else none
          | [] => none
        else none
      match try2 with
      | some x => some x
      | none =>
        if b == sep then (dateTail sep r2).map fun p => (parseNatDigits [a], p)
        else none
    else none
  | _ => none

/-- Leftmost match of a numeric date pattern with separator `sep`. -/
def matchDate (sep : Char) : List Char → Option (Nat × Nat × Option Nat)
  | [] => none
  | c :: t =>
    match dateAt sep (c :: t) with
    | some x => some x
    | none => matchDate sep t


/-- The unit alternation "minutes?|mins?|hours?|hrs?" at the start of
`l`; the result says whether an hour-family unit matched. -/
def unitAt (l : List Char) : Option Bool :=
  if listStartsWith l ("minute".toList) then some false
  else if listStartsWith l ("min".toList) then some false
  else if listStartsWith l ("hour".toList) then some true
  else if listStartsWith l ("hr".toList) then some true
  else none

/-- Attempt of the "(digits) whitespace* unit" pattern at the start of `l`. -/
def timeAt (l : List Char) : Option (Nat × Bool) :=
  match l with
  | c :: _ =>
    if c.isDigit then
      let ds := l.takeWhile Char.isDigit
      let rest := (l.dropWhile Char.isDigit).dropWhile isJsSpace
      match unitAt rest with
      | some h => some (parseNatDigits ds, h)
      | none => none
    else none
  | [] => none

/-- Leftmost match of the explicit time-quantity pattern. -/
def matchTime : List Char → Option (Nat × Bool)
  | [] => none
  | c :: t =>
    match timeAt (c :: t) with
    | some x => some x
    | none => matchTime t


/-- The captured group "(digits, optionally dash and more digits)" at the
start of `l`. -/
def numRangeAt (l : List Char) : Option (List Char) :=
  match l with
  | c :: _ =>
    if c.isDigit then
      let ds := l.takeWhile Char.isDigit
      let rest := l.dropWhile Char.isDigit
      match rest with
      | h :: t2 =>
        if h == '-' && !(t2.takeWhile Char.isDigit).isEmpty then
          some (ds ++ '-' :: t2.takeWhile Char.isDigit)
        else some ds
      | [] => some ds
    else none
  | [] => none

/-- Attempt of "word, optional letter s, whitespace*, number range" at the
start of `l` (used for chapter/pages/problems/exercises). -/
def wordNumAt (w : List Char) (optS : Bool) (l : List Char) : Option (List Char) :=
  if listStartsWith l w then
    let r := l.drop w.length
    let r2 :=
      if optS then
        match r with
        | c :: t => if c == 's' then t else r
        | [] => r
      else r
    numRangeAt (r2.dropWhile isJsSpace)
  else none

/-- Leftmost match of the word-plus-number pattern. -/
def matchWordNum (w : List Char) (optS : Bool) : List Char → Option (List Char)
  | [] => none
  | c :: t =>
    match wordNumAt w optS (c :: t) with
    | some x => some x
    | none => matchWordNum w optS t


/-! ### Lookup tables -/

/-- The ordered subject keyword list. -/
def subjects : List (List Char) :=
  ["mathematics", "math", "maths", "algebra", "geometry", "calculus",
   "science", "physics", "chemistry", "biology", "bio",
   "english", "literature", "writing", "essay", "reading",
   "history", "social studies", "geography", "civics",
   "art", "drawing", "painting", "music",
   "computer science", "programming", "coding",
   "physical education", "pe", "sports",
   "french", "spanish", "german", "language"].map String.toList

/-- The relative-time keyword table, in declaration order.  The weekday
entries are computed from the current date at table construction. -/
def timeKeywords (now : Int) : List (List Char × Int) :=
  [("today".toList, 0), ("tomorrow".toList, 1),
   ("day after tomorrow".toList, 2), ("next week".toList, 7),
   ("next monday".toList, getDaysUntilWeekday now 1),
   ("next tuesday".toList, getDaysUntilWeekday now 2),
   ("next wednesday".toList, getDaysUntilWeekday now 3),
   ("next thursday".toList, getDaysUntilWeekday now 4),
   ("next friday".toList, getDaysUntilWeekday now 5),
   ("next saturday".toList, getDaysUntilWeekday now 6),
   ("next sunday".toList, getDaysUntilWeekday now 0)]

/-- The priority keyword groups, in declaration order high, medium, low. -/
def priorityGroups : List (List Char × List (List Char)) :=
  [("high".toList, ["urgent", "important", "asap", "priority", "due tomorrow",
                    "test", "exam", "quiz"].map String.toList),
   ("medium".toList, ["assignment", "homework", "project", "essay", "report"].map String.toList),
   ("low".toList, ["read", "review", "practice", "optional", "extra credit"].map String.toList)]

/-- The task-type keyword groups, in declaration order. -/
def taskTypeGroups : List (List Char × List (List Char)) :=
  [("test".toList, ["test", "exam", "quiz", "assessment"].map String.toList),
   ("essay".toList, ["essay", "paper", "composition", "writing"].map String.toList),
   ("project".toList, ["project", "presentation", "research"].map String.toList),
   ("homework".toList, ["homework", "assignment", "exercises", "problems"].map String.toList),
   ("reading".toList, ["read", "chapter", "pages", "book"].map String.toList),
   ("lab".toList, ["lab", "experiment", "practical"].map String.toList)]

/-- The task-indicator keywords of the line classifier. -/
def taskIndicators : List (List Char) :=
  ["homework", "assignment", "due", "test", "exam", "quiz",
   "essay", "project", "read", "study", "complete", "finish",
   "chapter", "page", "exercise", "problem", "lab", "report"].map String.toList

/-- Stop-list of the default title branch. -/
def stopWords : List (List Char) := ["the", "and", "for", "due", "on"].map String.toList

/-! ### Field extractors -/

/-- `isTaskLine`: any indicator appears as a substring of the lowercased line. -/
def isTaskLine (line : List Char) : Bool :=
  taskIndicators.any fun k => containsSub (lowerL line) k

/-- First entry of a keyword table whose phrase the line contains. -/
def lookupKeyword (line : List Char) : List (List Char × Int) → Option Int
  | [] => none
  | (k, d) :: rest => if containsSub line k then some d else lookupKeyword line rest

/-- The numeric date-pattern loop of `extractDueDate`: patterns are tried
in order; a match is kept only when its date is strictly in the future,
otherwise the loop continues with the next pattern. -/
def datePatternScan (line : List Char) (now : Int) : List Char → Option Int
  | [] => none
  | sep :: seps =>
    match matchDate sep line with
    | some (mo, dy, yr) =>
      let y : Int :=
        match yr with
        | some yv => (yv : Int)
        | none => getFullYear now
      let dt := mkDateMs y ((mo : Int) - 1) (dy : Int)
      if now < dt then some dt else datePatternScan line now seps
    | none => datePatternScan line now seps

/-- `extractDueDate`: relative keyword table, then "in N days", then the
numeric date patterns, then the one-week default. -/
def extractDueDate (line : List Char) (now : Int) : Int :=
  match lookupKeyword line (timeKeywords now) with
  | some days => now + days * msPerDay
  | none =>
    match matchInDays line with
    | some n => now + (n : Int) * msPerDay
    | none =>
      match datePatternScan line now ['/', '-', '.'] with
      | some dt => dt
      | none => now + 7 * msPerDay

/-- `word.charAt(0).toUpperCase() + word.slice(1)`. -/
def capitalizeWord : List Char → List Char
  | [] => []
  | c :: t => jsToUpper c :: t

/-- Split on single spaces, keeping empty segments, like the JavaScript
`split` with a plain one-character separator string. -/
def splitSp : List Char → List (List Char)
  | [] => [[]]
  | c :: t =>
    if c == ' ' then [] :: splitSp t
    else
      match splitSp t with
      | [] => [[c]]
      | s :: ss => (c :: s) :: ss

/-- Title-casing of a matched subject keyword, word by word. -/
def titleCaseWords (s : List Char) : List Char :=
  List.intercalate [' '] ((splitSp s).map capitalizeWord)

/-- The subject scan over an explicit keyword list. -/
def findSubject (line : List Char) : List (List Char) → List Char
  | [] => "General".toList
  | s :: rest => if containsSub line s then titleCaseWords s else findSubject line rest

/-- `extractSubject`: first matching subject keyword, title-cased. -/
def extractSubject (line : List Char) : List Char := findSubject line subjects

/-- First keyword group with a substring match in the line. -/
def findGroup (line : List Char) : List (List Char × List (List Char)) → Option (List Char)
  | [] => none
  | (name, kws) :: rest =>
    if kws.any (fun k => containsSub line k) then some name else findGroup line rest

/-- `extractPriority`: high, then medium, then low; default medium. -/
def extractPriority (line : List Char) : List Char :=
  (findGroup line priorityGroups).getD ("medium".toList)

/-- `extractTaskType`: first matching type group; default homework. -/
def extractTaskType (line : List Char) : List Char :=
  (findGroup line taskTypeGroups).getD ("homework".toList)

/-- `extractEstimatedTime`: explicit quantity with unit, then keyword
fallbacks, then 60 minutes. -/
def extractEstimatedTime (line : List Char) : Nat :=
  match matchTime line with
  | some (v, isHour) => if isHour then v * 60 else v
  | none =>
    if containsSub line ("test".toList) || containsSub line ("exam".toList) then 120
    else if containsSub line ("essay".toList) || containsSub line ("project".toList) then 180
    else if containsSub line ("read".toList) then 45
    else if containsSub line ("homework".toList) || containsSub line ("assignment".toList) then 60
    else if containsSub line ("lab".toList) || containsSub line ("experiment".toList) then 90
    else 60

/-- The extracted field bundle. -/
structure ParsedTaskInfo where
  subject : List Char
  dueDate : Int
  priority : List Char
  estimatedTime : Nat
  taskType : List Char
deriving DecidableEq, Repr

/-- `extractTaskInfo`: the five extractors run independently on the
lowercased line. -/
def extractTaskInfo (line : List Char) (now : Int) : ParsedTaskInfo :=
  { subject := extractSubject line
    dueDate := extractDueDate line now
    priority := extractPriority line
    estimatedTime := extractEstimatedTime line
    taskType := extractTaskType line }

/-! ### Title/description synthesis and task assembly -/

/-- Truncation used by the default-branch title and the raw-line
fallback: over 50 characters becomes the first 47 plus an ellipsis. -/
def truncate50 (l : List Char) : List Char :=
  if 50 < l.length then l.take 47 ++ "...".toList else l

/-- The local `taskType` of the synthesizer: `taskInfo.taskType || 'assignment'`
(the empty string is the only falsy string). -/
def typeOrDefault (info : ParsedTaskInfo) : List Char :=
  if info.taskType.isEmpty then "assignment".toList else info.taskType

/-- The local `subject` of the synthesizer: `taskInfo.subject || 'General'`. -/
def subjOrDefault (info : ParsedTaskInfo) : List Char :=
  if info.subject.isEmpty then "General".toList else info.subject

/-- The meaningful-words title of the default branch: words longer than
two characters and outside the stop-list, first six, space-joined. -/
def meaningfulTitle (line : List Char) : List Char :=
  List.intercalate [' ']
    (((splitSp line).filter fun w => 2 < w.length && !(stopWords.contains (lowerL w))).take 6)

/-- The `switch (taskType)` of `generateTitleAndDescription`: the pair of
title and description before the empty-title fallback and final trims. -/
def genTitleDesc0 (line : List Char) (info : ParsedTaskInfo) : List Char × List Char :=
  if typeOrDefault info == "test".toList then
    match matchWordNum ("chapter".toList) false (lowerL line) with
    | some m =>
      (subjOrDefault info ++ [' '] ++ typeOrDefault info ++ " - Chapter ".toList ++ m,
       "Study for ".toList ++ lowerL (subjOrDefault info) ++ " test covering chapter ".toList ++ m)
    | none => (subjOrDefault info ++ [' '] ++ typeOrDefault info, line)
  else if typeOrDefault info == "essay".toList then
    (subjOrDefault info ++ " Essay".toList,
     "Write essay for ".toList ++ lowerL (subjOrDefault info))
  else if typeOrDefault info == "reading".toList then
    match matchWordNum ("chapter".toList) false (lowerL line) with
    | some m =>
      ("Read ".toList ++ subjOrDefault info ++ " Chapter ".toList ++ m,
       "Read chapter ".toList ++ m ++ " for ".toList ++ lowerL (subjOrDefault info))
    | none =>
      match matchWordNum ("page".toList) true (lowerL line) with
      | some m =>
        ("Read ".toList ++ subjOrDefault info ++ " Pages ".toList ++ m,
         "Read pages ".toList ++ m ++ " for ".toList ++ lowerL (subjOrDefault info))
      | none => ("Read ".toList ++ subjOrDefault info, line)
  else if typeOrDefault info == "homework".toList then
    match matchWordNum ("problem".toList) true (lowerL line) with
    | some m =>
      (subjOrDefault info ++ " Homework - Problems ".toList ++ m,
       "Complete problems ".toList ++ m ++ " for ".toList ++ lowerL (subjOrDefault info))
    | none =>
      match matchWordNum ("exercise".toList) true (lowerL line) with
      | some m =>
        (subjOrDefault info ++ " Homework - Exercises ".toList ++ m,
         "Complete exercises ".toList ++ m ++ " for ".toList ++ lowerL (subjOrDefault info))
      | none => (subjOrDefault info ++ " Homework".toList, line)
  else
    (truncate50 (meaningfulTitle line), line)

/-- `generateTitleAndDescription`: the type switch, then the raw-line
fallback when the synthesized title trims to empty, then final trims. -/
def generateTitleAndDescription (line : List Char) (info : ParsedTaskInfo) :
    List Char × List Char :=
  (trimChars
    (if (trimChars (genTitleDesc0 line info).1).isEmpty then truncate50 line
     else (genTitleDesc0 line info).1),
   trimChars (genTitleDesc0 line info).2)

/-- The output entity. -/
structure Task where
  id : List Char
  title : List Char
  subject : List Char
  description : List Char
  dueDate : Int
  priority : List Char
  estimatedTime : Nat
  completed : Bool
  createdFrom : List Char
deriving DecidableEq, Repr, Inhabited

def intStr (n : Int) : List Char := (toString n).toList

def natStr (n : Nat) : List Char := (toString n).toList

/-- `parseTaskLine`: extract the fields from the lowercased line,
synthesize title and description, and assemble the task; `null` exactly
when the synthesized title is empty. -/
def parseTaskLine (line : List Char) (index : Nat) (now : Int) : Option Task :=
  if (generateTitleAndDescription line (extractTaskInfo (lowerL line) now)).1.isEmpty then none
  else some
    { id := "ocr_".toList ++ intStr now ++ "_".toList ++ natStr index
      title := (generateTitleAndDescription line (extractTaskInfo (lowerL line) now)).1
      subject := subjOrDefault (extractTaskInfo (lowerL line) now)
      description := (generateTitleAndDescription line (extractTaskInfo (lowerL line) now)).2
      dueDate := (extractTaskInfo (lowerL line) now).dueDate
      priority :=
        if (extractTaskInfo (lowerL line) now).priority.isEmpty then "medium".toList
        else (extractTaskInfo (lowerL line) now).priority
      estimatedTime :=
        if (extractTaskInfo (lowerL line) now).estimatedTime == 0 then 60
        else (extractTaskInfo (lowerL line) now).estimatedTime
      completed := false
      createdFrom := "diary".toList }

/-- `parseText`: preprocess, keep classified task lines, parse each. -/
def parseText (text : List Char) (now : Int) : List Task :=
  (preprocessText text).enum.filterMap fun p =>
    if isTaskLine p.2 then parseTaskLine p.2 p.1 now else none

/-- A list with at least one non-whitespace character. -/
def hasNonSpace (l : List Char) : Bool := l.any fun c => !isJsSpace c

/-- Invariant of the output of `collapseWs`: every whitespace character
is a plain space and no two whitespace characters are adjacent; `prev`
records whether the previous character was whitespace. -/
def spacedAfter : Bool → List Char → Bool
  | _, [] => true
  | prev, c :: t =>
    if isJsSpace c then (c == ' ') && !prev && spacedAfter true t
    else spacedAfter false t

/-! ### Sanity checks on concrete inputs -/

example : preprocessText ("  Hi!\nMath homework  ".toList) = ["Hi! Math homework".toList] := by decide
example : mkDateMs 1970 0 1 = 0 := by decide
example : mkDateMs 1970 0 2 = msPerDay := by decide
example : mkDateMs 2026 11 25 - mkDateMs 2026 0 1 = 358 * msPerDay := by decide
example : getFullYear (mkDateMs 2026 5 15) = 2026 := by decide
example : getDay (mkDateMs 2026 9 12) = 1 := by decide
example : matchDate '/' ("due 1/1 12-25".toList) = some (1, 1, none) := by decide
example : matchDate '-' ("due 1/1 12-25".toList) = some (12, 25, none) := by decide
example : matchDate '-' ("read chapter 3-5 for history".toList) = some (3, 5, none) := by decide
example : matchDate '/' ("meet 12/25/2026 ok".toList) = some (12, 25, some 2026) := by decide
example : matchTime ("read 30 minutes".toList) = some (30, false) := by decide
example : matchTime ("math test, 2 hours".toList) = some (2, true) := by decide
example : matchWordNum ("chapter".toList) false ("read chapter 3-5 now".toList) = some ("3-5".toList) := by decide
example : matchWordNum ("problem".toList) true ("do problems 12 now".toList) = some ("12".toList) := by decide

/-! ### Helper lemmas: substring containment -/

lemma mem_of_listStartsWith : ∀ {l pat : List Char}, listStartsWith l pat = true →
    ∀ c ∈ pat, c ∈ l := by
  intro l pat
  induction pat generalizing l with
  | nil => intro _ c hc; cases hc
  | cons b bs ih =>
    intro h c hc
    cases l with
    | nil => simp [listStartsWith] at h
    | cons a as =>
      simp only [listStartsWith, Bool.and_eq_true, beq_iff_eq] at h
      rcases List.mem_cons.mp hc with rfl | hc'
      · exact h.1 ▸ List.mem_cons_self _ _
      · exact List.mem_cons_of_mem _ (ih h.2 c hc')

lemma mem_of_containsSub : ∀ {hay pat : List Char}, containsSub hay pat = true →
    ∀ c ∈ pat, c ∈ hay := by
  intro hay
  induction hay with
  | nil =>
    intro pat h c hc
    simp only [containsSub, List.isEmpty_iff] at h
    subst h; cases hc
  | cons a t ih =>
    intro pat h c hc
    simp only [containsSub, Bool.or_eq_true] at h
    rcases h with h | h
    · exact mem_of_listStartsWith h c hc
    · exact List.mem_cons_of_mem _ (ih h c hc)

/-! ### Helper lemmas: whitespace characters -/

lemma jsToLower_of_space {c : Char} (h : isJsSpace c = true) : jsToLower c = c := by
  simp only [isJsSpace, jsSpaceN, Bool.or_eq_true, beq_iff_eq] at h
  unfold jsToLower
  rw [if_neg]
  omega

lemma isJsSpace_of_isNl {c : Char} (h : isNl c = true) : isJsSpace c = true := by
  simp only [isNl, Bool.or_eq_true, beq_iff_eq] at h
  rcases h with rfl | rfl <;> decide


lemma hasNonSpace_iff {l : List Char} :
    hasNonSpace l = true ↔ ∃ c ∈ l, isJsSpace c = false := by
  simp [hasNonSpace]

lemma hasNonSpace_lower {line : List Char} (h : hasNonSpace (lowerL line) = true) :
    hasNonSpace line = true := by
  rcases hasNonSpace_iff.mp h with ⟨c, hc, hs⟩
  rcases List.mem_map.mp hc with ⟨c', hc', rfl⟩
  refine hasNonSpace_iff.mpr ⟨c', hc', ?_⟩
  by_contra hne
  have hsp : isJsSpace c' = true := by
    cases hx : isJsSpace c' with
    | false => exact absurd hx hne
    | true => rfl
  rw [jsToLower_of_space hsp] at hs
  rw [hsp] at hs
  cases hs

lemma isTaskLine_hasNonSpace {line : List Char} (h : isTaskLine line = true) :
    hasNonSpace line = true := by
  unfold isTaskLine at h
  rcases List.any_eq_true.mp h with ⟨k, hk, hsub⟩
  have hks : ∀ k ∈ taskIndicators, ∃ c ∈ k, isJsSpace c = false := by decide
  rcases hks k hk with ⟨c, hc, hcs⟩
  exact hasNonSpace_lower (hasNonSpace_iff.mpr ⟨c, mem_of_containsSub hsub c hc, hcs⟩)

/-! ### Helper lemmas: trimming -/

lemma dropWhile_head_false {p : Char → Bool} :
    ∀ {l : List Char} {c : Char} {t' : List Char},
      List.dropWhile p l = c :: t' → p c = false := by
  intro l
  induction l with
  | nil => intro c t' h; cases h
  | cons a t ih =>
    intro c t' h
    by_cases ha : p a = true
    · rw [List.dropWhile_cons_of_pos ha] at h
      exact ih h
    · rw [List.dropWhile_cons_of_neg ha] at h
      cases h
      cases hx : p a with
      | false => rfl
      | true => exact absurd hx ha

lemma exists_nonspace_dropWhile {l : List Char} (h : ∃ c ∈ l, isJsSpace c = false) :
    ∃ c ∈ l.dropWhile isJsSpace, isJsSpace c = false := by
  induction l with
  | nil => rcases h with ⟨c, hc, _⟩; cases hc
  | cons a t ih =>
    by_cases ha : isJsSpace a = true
    · rw [List.dropWhile_cons_of_pos ha]
      rcases h with ⟨c, hc, hcs⟩
      rcases List.mem_cons.mp hc with rfl | hc'
      · rw [ha] at hcs; cases hcs
      · exact ih ⟨c, hc', hcs⟩
    · rw [List.dropWhile_cons_of_neg ha]
      exact h

lemma trimChars_ne_nil {l : List Char} (h : hasNonSpace l = true) : trimChars l ≠ [] := by
  intro hnil
  unfold trimChars at hnil
  have hall := List.rdropWhile_eq_nil_iff.mp hnil
  rcases exists_nonspace_dropWhile (hasNonSpace_iff.mp h) with ⟨c, hc, hcs⟩
  rw [hall c hc] at hcs
  cases hcs

lemma trimChars_subset {l : List Char} : trimChars l ⊆ l := by
  intro c hc
  unfold trimChars at hc
  have h1 := (List.rdropWhile_prefix isJsSpace (l.dropWhile isJsSpace)).subset hc
  exact (List.dropWhile_sublist isJsSpace).subset h1

lemma trimChars_length_le (l : List Char) : (trimChars l).length ≤ l.length := by
  unfold trimChars
  calc (List.rdropWhile isJsSpace (l.dropWhile isJsSpace)).length
      ≤ (l.dropWhile isJsSpace).length :=
        (List.rdropWhile_prefix isJsSpace (l.dropWhile isJsSpace)).length_le
    _ ≤ l.length := (List.dropWhile_sublist isJsSpace).length_le

lemma trimChars_idempotent (l : List Char) : trimChars (trimChars l) = trimChars l := by
  have h1 : (trimChars l).dropWhile isJsSpace = trimChars l := by
    cases hX : trimChars l with
    | nil => rfl
    | cons c t =>
      have hpre : trimChars l <+: l.dropWhile isJsSpace := by
        unfold trimChars
        exact List.rdropWhile_prefix _ _
      rw [hX] at hpre
      rcases hpre with ⟨r, hr⟩
      have hc : isJsSpace c = false := dropWhile_head_false (l := l) hr.symm
      exact List.dropWhile_cons_of_neg (by rw [hc]; exact Bool.false_ne_true)
  show List.rdropWhile isJsSpace ((trimChars l).dropWhile isJsSpace) = trimChars l
  rw [h1]
  unfold trimChars
  exact List.rdropWhile_idempotent _ _

/-! ### Helper lemmas: whitespace normalization -/


lemma isJsSpace_space : isJsSpace ' ' = true := rfl

lemma spacedAfter_false_of_true {l : List Char} (h : spacedAfter true l = true) :
    spacedAfter false l = true := by
  cases l with
  | nil => rfl
  | cons c t =>
    cases hc : isJsSpace c with
    | true => simp [spacedAfter, hc] at h
    | false => simpa [spacedAfter, hc] using h

lemma spacedAfter_true_of_head {l : List Char} (h : spacedAfter false l = true)
    (hh : ∀ c t', l = c :: t' → isJsSpace c = false) : spacedAfter true l = true := by
  cases l with
  | nil => rfl
  | cons c t =>
    have hc := hh c t rfl
    simpa [spacedAfter, hc] using h

lemma collapseWs_cons_nonspace {a : Char} {t : List Char} (ha : isJsSpace a = false) :
    collapseWs (a :: t) = a :: collapseWs t := by
  cases t with
  | nil => simp [collapseWs, ha]
  | cons b t' => simp [collapseWs, ha]

lemma collapseWs_spaced : ∀ l : List Char, spacedAfter false (collapseWs l) = true := by
  intro l
  induction l with
  | nil => rfl
  | cons a t ih =>
    cases t with
    | nil =>
      cases ha : isJsSpace a with
      | true => simp [collapseWs, ha, spacedAfter, isJsSpace_space]
      | false => simp [collapseWs, ha, spacedAfter]
    | cons b t' =>
      cases ha : isJsSpace a with
      | true =>
        cases hb : isJsSpace b with
        | true => simpa [collapseWs, ha, hb] using ih
        | false =>
          have hx : collapseWs (a :: b :: t') = ' ' :: collapseWs (b :: t') := by
            simp [collapseWs, ha, hb]
          have hhead : collapseWs (b :: t') = b :: collapseWs t' :=
            collapseWs_cons_nonspace hb
          have htrue : spacedAfter true (collapseWs (b :: t')) = true := by
            refine spacedAfter_true_of_head ih ?_
            intro c u hcu
            rw [hhead] at hcu
            cases hcu
            exact hb
          rw [hx]
          simp [spacedAfter, isJsSpace_space, htrue]
      | false =>
        rw [collapseWs_cons_nonspace ha]
        simpa [spacedAfter, ha] using ih

lemma collapseWs_eq_self : ∀ l : List Char, spacedAfter false l = true → collapseWs l = l := by
  intro l
  induction l with
  | nil => intro _; rfl
  | cons a t ih =>
    intro h
    cases t with
    | nil =>
      cases ha : isJsSpace a with
      | true =>
        have ha' : a = ' ' := by simpa [spacedAfter, ha] using h
        simp [collapseWs, ha, ha']
      | false => simp [collapseWs, ha]
    | cons b t' =>
      cases ha : isJsSpace a with
      | true =>
        have h' : a = ' ' ∧ spacedAfter true (b :: t') = true := by
          simpa [spacedAfter, ha] using h
        have hb : isJsSpace b = false := by
          cases hb : isJsSpace b with
          | false => rfl
          | true =>
            have := h'.2
            simp [spacedAfter, hb] at this
        have hfalse : spacedAfter false (b :: t') = true := spacedAfter_false_of_true h'.2
        rw [show collapseWs (a :: b :: t') = ' ' :: collapseWs (b :: t') by
              simp [collapseWs, ha, hb],
            ih hfalse, h'.1]
      | false =>
        have h' : spacedAfter false (b :: t') = true := by
          simpa [spacedAfter, ha] using h
        rw [collapseWs_cons_nonspace ha, ih h']

lemma spaced_space_mem : ∀ (b : Bool) (l : List Char), spacedAfter b l = true →
    ∀ c ∈ l, isJsSpace c = true → c = ' ' := by
  intro b l
  induction l generalizing b with
  | nil => intro _ c hc; cases hc
  | cons a t ih =>
    intro h c hc hcs
    cases ha : isJsSpace a with
    | true =>
      simp [spacedAfter, ha] at h
      obtain ⟨⟨h1, h2⟩, h3⟩ := h
      rcases List.mem_cons.mp hc with rfl | hc'
      · exact h1
      · exact ih true h3 c hc' hcs
    | false =>
      have h' : spacedAfter false t = true := by simpa [spacedAfter, ha] using h
      rcases List.mem_cons.mp hc with rfl | hc'
      · rw [ha] at hcs; cases hcs
      · exact ih false h' c hc' hcs

lemma spacedAfter_no_nl {l : List Char} (h : spacedAfter false l = true) :
    ∀ c ∈ l, isNl c = false := by
  intro c hc
  cases hx : isNl c with
  | false => rfl
  | true =>
    have hcs := isJsSpace_of_isNl hx
    have := spaced_space_mem false l h c hc hcs
    rw [this] at hx
    cases hx

lemma spacedAfter_append_left : ∀ (b : Bool) (l r : List Char),
    spacedAfter b (l ++ r) = true → spacedAfter b l = true := by
  intro b l
  induction l generalizing b with
  | nil => intro r _; rfl
  | cons a t ih =>
    intro r h
    cases ha : isJsSpace a with
    | true =>
      simp [spacedAfter, ha] at h ⊢
      obtain ⟨⟨h1, h2⟩, h3⟩ := h
      exact ⟨⟨h1, h2⟩, ih true r h3⟩
    | false =>
      simp [spacedAfter, ha] at h ⊢
      exact ih false r h

lemma spacedAfter_dropWhile : ∀ l : List Char, spacedAfter false l = true →
    spacedAfter false (l.dropWhile isJsSpace) = true := by
  intro l
  induction l with
  | nil => intro _; rfl
  | cons a t ih =>
    intro h
    cases ha : isJsSpace a with
    | true =>
      rw [List.dropWhile_cons_of_pos ha]
      have h' : spacedAfter true t = true := by
        simp [spacedAfter, ha] at h
        exact h.2
      exact ih (spacedAfter_false_of_true h')
    | false =>
      rw [List.dropWhile_cons_of_neg (by rw [ha]; exact Bool.false_ne_true)]
      exact h

lemma trimChars_spaced {l : List Char} (h : spacedAfter false l = true) :
    spacedAfter false (trimChars l) = true := by
  unfold trimChars
  have h1 := spacedAfter_dropWhile l h
  rcases List.rdropWhile_prefix isJsSpace (l.dropWhile isJsSpace) with ⟨r, hr⟩
  rw [← hr] at h1
  exact spacedAfter_append_left false _ r h1

/-! ### Helper lemmas: cleaning and splitting -/

lemma cleanChars_whitelisted {l : List Char} : ∀ c ∈ cleanChars l, whitelisted c = true := by
  intro c hc
  rcases List.mem_map.mp hc with ⟨a, _, rfl⟩
  cases h : whitelisted a with
  | true => simp [h]
  | false => simp [h]; decide

lemma cleanChars_eq_self {l : List Char} (h : ∀ c ∈ l, whitelisted c = true) :
    cleanChars l = l := by
  induction l with
  | nil => rfl
  | cons a t ih =>
    unfold cleanChars
    simp only [List.map_cons]
    rw [if_pos (h a (List.mem_cons_self _ _))]
    have := ih fun c hc => h c (List.mem_cons_of_mem _ hc)
    unfold cleanChars at this
    rw [this]

lemma collapseWs_chars : ∀ {l : List Char} {c : Char}, c ∈ collapseWs l →
    c = ' ' ∨ c ∈ l := by
  intro l
  induction l with
  | nil => intro c hc; cases hc
  | cons a t ih =>
    intro c hc
    cases t with
    | nil =>
      cases ha : isJsSpace a with
      | true =>
        simp [collapseWs, ha] at hc
        exact Or.inl hc
      | false =>
        simp [collapseWs, ha] at hc
        exact Or.inr (by simp [hc])
    | cons b t' =>
      cases ha : isJsSpace a with
      | true =>
        cases hb : isJsSpace b with
        | true =>
          rw [show collapseWs (a :: b :: t') = collapseWs (b :: t') by
              simp [collapseWs, ha, hb]] at hc
          rcases ih hc with h | h
          · exact Or.inl h
          · exact Or.inr (List.mem_cons_of_mem _ h)
        | false =>
          rw [show collapseWs (a :: b :: t') = ' ' :: collapseWs (b :: t') by
              simp [collapseWs, ha, hb]] at hc
          rcases List.mem_cons.mp hc with rfl | hc'
          · exact Or.inl rfl
          · rcases ih hc' with h | h
            · exact Or.inl h
            · exact Or.inr (List.mem_cons_of_mem _ h)
      | false =>
        rw [collapseWs_cons_nonspace ha] at hc
        rcases List.mem_cons.mp hc with rfl | hc'
        · exact Or.inr (List.mem_cons_self _ _)
        · rcases ih hc' with h | h
          · exact Or.inl h
          · exact Or.inr (List.mem_cons_of_mem _ h)

lemma splitNl_no_nl : ∀ {l : List Char}, (∀ c ∈ l, isNl c = false) → splitNl l = [l] := by
  intro l
  induction l with
  | nil => intro _; rfl
  | cons a t ih =>
    intro h
    have ha : isNl a = false := h a (List.mem_cons_self _ _)
    cases t with
    | nil => simp [splitNl, ha]
    | cons b t' =>
      have ht : splitNl (b :: t') = [b :: t'] := ih fun c hc => h c (List.mem_cons_of_mem _ hc)
      simp [splitNl, ha, ht]

/-! ### The structure of the preprocessor output -/

lemma preprocess_structure (text : List Char) :
    preprocessText text =
      if 3 < (trimChars (collapseWs (cleanChars text))).length
      then [trimChars (collapseWs (cleanChars text))] else [] := by
  unfold preprocessText
  have hnl : ∀ c ∈ trimChars (collapseWs (cleanChars text)), isNl c = false :=
    spacedAfter_no_nl (trimChars_spaced (collapseWs_spaced _))
  rw [splitNl_no_nl hnl]
  simp only [List.map_cons, List.map_nil, trimChars_idempotent, List.filter_cons,
    List.filter_nil, decide_eq_true_eq]

/-! ### Helper lemmas: title synthesis -/

lemma hasNonSpace_append_right {a b : List Char} (h : hasNonSpace b = true) :
    hasNonSpace (a ++ b) = true := by
  unfold hasNonSpace at *
  rw [List.any_append, h, Bool.or_true]

lemma truncate50_hasNonSpace {l : List Char} (h : hasNonSpace l = true) :
    hasNonSpace (truncate50 l) = true := by
  unfold truncate50
  split
  · exact hasNonSpace_append_right (by decide)
  · exact h

lemma truncate50_length_le (l : List Char) : (truncate50 l).length ≤ 50 := by
  unfold truncate50
  split
  · next h =>
    have h3 : ("...".toList).length = 3 := rfl
    rw [List.length_append, List.length_take, h3]
    omega
  · next h => omega

lemma gen_title_ne_nil (line : List Char) (info : ParsedTaskInfo)
    (hline : hasNonSpace line = true) :
    (generateTitleAndDescription line info).1 ≠ [] := by
  unfold generateTitleAndDescription
  dsimp only
  split
  · exact trimChars_ne_nil (truncate50_hasNonSpace hline)
  · next h => simpa [List.isEmpty_iff] using h

lemma gen_title_len_default (line : List Char) (info : ParsedTaskInfo)
    (h : info.taskType = "project".toList ∨ info.taskType = "lab".toList) :
    (generateTitleAndDescription line info).1.length ≤ 50 := by
  have he : genTitleDesc0 line info = (truncate50 (meaningfulTitle line), line) := by
    rcases h with h | h
    · have ht' : typeOrDefault info = "project".toList := by
        unfold typeOrDefault
        rw [h]
        rfl
      unfold genTitleDesc0
      rw [ht']
      rfl
    · have ht' : typeOrDefault info = "lab".toList := by
        unfold typeOrDefault
        rw [h]
        rfl
      unfold genTitleDesc0
      rw [ht']
      rfl
  unfold generateTitleAndDescription
  rw [he]
  dsimp only
  refine le_trans (trimChars_length_le _) ?_
  split
  · exact truncate50_length_le _
  · exact truncate50_length_le _

/-! ### The claims -/

/-- Claim C1, evaluated at the failing input: the whitespace
normalization replaces the newline with a space before the newline split
runs, so the input "abcde" newline "fghij" produces the single line
"abcde fghij" instead of the two lines "abcde" and "fghij" that the
specified newline split would give. -/
theorem c1_preprocess_single_line :
    preprocessText ("abcde\nfghij".toList) = ["abcde fghij".toList] ∧
      preprocessText ("abcde\nfghij".toList) ≠ ["abcde".toList, "fghij".toList] := by
  constructor
  · decide
  · decide

/-- Claim C2: every line of length above 3 that the classifier accepts
is parsed to exactly one task, never null, with a non-empty title. -/
theorem c2_totality (line : List Char) (index : Nat) (now : Int)
    (hlen : 3 < line.length) (htask : isTaskLine line = true) :
    ∃ t : Task, parseTaskLine line index now = some t ∧ t.title ≠ [] := by
  have hns := isTaskLine_hasNonSpace htask
  have hti := gen_title_ne_nil line (extractTaskInfo (lowerL line) now) hns
  unfold parseTaskLine
  rw [if_neg fun hx => hti (List.isEmpty_iff.mp hx)]
  exact ⟨_, rfl, hti⟩

/-- Witness for claim C2 at the concrete line "Math homework". -/
theorem c2_totality_witness :
    ∃ t : Task, parseTaskLine ("Math homework".toList) 0 0 = some t ∧ t.title ≠ [] :=
  c2_totality ("Math homework".toList) 0 0 (by decide) (by decide)

/-- Claim C3: in "Essay due 12/25 next week" the relative keyword table
is consulted before the numeric date patterns, the phrase "next week"
matches, and the due date is now plus seven days. -/
theorem c3_keyword_precedence (now : Int) :
    extractDueDate (lowerL ("Essay due 12/25 next week".toList)) now =
      now + 7 * msPerDay := rfl

/-- Claim C4: field extraction on "Math homework due tomorrow chapter 5"
gives subject Math, priority high, due date now plus one day, estimated
time 60 and task type homework. -/
theorem c4_field_extraction (now : Int) (index : Nat) :
    (parseTaskLine ("Math homework due tomorrow chapter 5".toList) index now).map
        Task.subject = some ("Math".toList) ∧
      (parseTaskLine ("Math homework due tomorrow chapter 5".toList) index now).map
        Task.priority = some ("high".toList) ∧
      (parseTaskLine ("Math homework due tomorrow chapter 5".toList) index now).map
        Task.dueDate = some (now + 1 * msPerDay) ∧
      (parseTaskLine ("Math homework due tomorrow chapter 5".toList) index now).map
        Task.estimatedTime = some 60 ∧
      extractTaskType (lowerL ("Math homework due tomorrow chapter 5".toList)) =
        "homework".toList :=
  ⟨rfl, rfl, rfl, rfl, rfl⟩

/-- Claim C5, evaluated at the failing input: a line containing the
phrase "day after tomorrow" also contains the earlier-declared table
phrase "tomorrow" as a substring, so extraction returns now plus one
day; the "day after tomorrow" entry mapping to two days never fires. -/
theorem c5_day_after_tomorrow_shadowed (now : Int) :
    containsSub ("essay due day after tomorrow".toList) ("day after tomorrow".toList) = true ∧
      extractDueDate ("essay due day after tomorrow".toList) now = now + 1 * msPerDay :=
  ⟨rfl, rfl⟩

/-- Counterexample to claim C6: in "due 1/1 12-25" with now in June
2026, the slash pattern matches "1/1" whose date is past, yet extraction
does not fall to the seven-day default: the dash pattern is still tried
and its future date December 25 is returned. -/
theorem c6_counterexample :
    matchDate '/' ("due 1/1 12-25".toList) = some (1, 1, none) ∧
      ¬ mkDateMs 2026 5 15 < mkDateMs (getFullYear (mkDateMs 2026 5 15)) 0 1 ∧
      extractDueDate ("due 1/1 12-25".toList) (mkDateMs 2026 5 15) = mkDateMs 2026 11 25 ∧
      mkDateMs 2026 11 25 ≠ mkDateMs 2026 5 15 + 7 * msPerDay := by
  refine ⟨by decide, by decide, by decide, by decide⟩

/-- Claim C6 as amended: when the keyword table and the "in N days" rule
fail, a slash-pattern match with a non-future date does not end the
scan; the remaining numeric patterns are tried in order, and a later
pattern whose date is strictly future yields that date. -/
theorem c6_amended_fallthrough (line : List Char) (now : Int)
    (hk : lookupKeyword line (timeKeywords now) = none)
    (hin : matchInDays line = none)
    (m1 d1 : Nat) (h1 : matchDate '/' line = some (m1, d1, none))
    (hpast : ¬ now < mkDateMs (getFullYear now) ((m1 : Int) - 1) (d1 : Int))
    (m2 d2 : Nat) (h2 : matchDate '-' line = some (m2, d2, none))
    (hfut : now < mkDateMs (getFullYear now) ((m2 : Int) - 1) (d2 : Int)) :
    extractDueDate line now = mkDateMs (getFullYear now) ((m2 : Int) - 1) (d2 : Int) := by
  unfold extractDueDate
  rw [hk, hin]
  unfold datePatternScan
  rw [h1]
  dsimp only
  rw [if_neg hpast]
  unfold datePatternScan
  rw [h2]
  dsimp only
  rw [if_pos hfut]

/-- Witness for the amended claim C6 at the concrete counterexample
input. -/
theorem c6_amended_witness :
    extractDueDate ("due 1/1 12-25".toList) (mkDateMs 2026 5 15) =
      mkDateMs (getFullYear (mkDateMs 2026 5 15)) (((12 : Nat) : Int) - 1) ((25 : Nat) : Int) :=
  c6_amended_fallthrough ("due 1/1 12-25".toList) (mkDateMs 2026 5 15)
    (by decide) (by decide) 1 1 (by decide) (by decide) 12 25 (by decide) (by decide)

/-- Counterexample to claim C7: the homework-branch title is never
truncated; the line "math homework problems " followed by thirty digits
yields a title of length 55, above the claimed bound of 50. -/
theorem c7_counterexample :
    (parseTaskLine ("math homework problems 123456789012345678901234567890".toList) 0 0).map
        (fun t => t.title.length) = some 55 ∧ ¬ (55 : Nat) ≤ 50 := by
  refine ⟨by decide, by decide⟩

/-- Claim C7 as amended: every returned title is non-empty, and when the
task type puts the synthesizer in the default branch (type project or
lab) the title is at most 50 characters, by the 47-character-plus-
ellipsis truncation; branch-specific titles are not truncated. -/
theorem c7_amended_truncation (line : List Char) (index : Nat) (now : Int) (t : Task)
    (hlen : 3 < line.length) (htask : isTaskLine line = true)
    (ht : parseTaskLine line index now = some t) :
    t.title ≠ [] ∧
      ((extractTaskType (lowerL line) = "project".toList ∨
        extractTaskType (lowerL line) = "lab".toList) → t.title.length ≤ 50) := by
  have hns := isTaskLine_hasNonSpace htask
  have hti := gen_title_ne_nil line (extractTaskInfo (lowerL line) now) hns
  unfold parseTaskLine at ht
  rw [if_neg fun hx => hti (List.isEmpty_iff.mp hx)] at ht
  have ht' := (Option.some.injEq _ _).mp ht
  subst ht'
  constructor
  · exact hti
  · intro hty
    exact gen_title_len_default line (extractTaskInfo (lowerL line) now) hty

/-- Witness for the amended claim C7 at the concrete line "science lab". -/
theorem c7_amended_witness :
    ((parseTaskLine ("science lab".toList) 0 0).getD default).title ≠ [] ∧
      ((extractTaskType (lowerL ("science lab".toList)) = "project".toList ∨
        extractTaskType (lowerL ("science lab".toList)) = "lab".toList) →
        ((parseTaskLine ("science lab".toList) 0 0).getD default).title.length ≤ 50) :=
  c7_amended_truncation ("science lab".toList) 0 0 _ (by decide) (by decide) (by decide)

/-- Claim C8: for a target weekday 0..6 the helper returns a value in
1..7; it is 7 when today is that weekday and otherwise the left-over of
(target minus current plus 7) modulo 7. -/
theorem c8_days_until_weekday (now target : Int) (h0 : 0 ≤ target) (h7 : target < 7) :
    (1 ≤ getDaysUntilWeekday now target ∧ getDaysUntilWeekday now target ≤ 7) ∧
      (target = getDay now → getDaysUntilWeekday now target = 7) ∧
      (target ≠ getDay now →
        getDaysUntilWeekday now target = (target - getDay now + 7) % 7) := by
  have hd0 : 0 ≤ getDay now := Int.emod_nonneg _ (by norm_num)
  have hd7 : getDay now < 7 := Int.emod_lt_of_pos _ (by norm_num)
  unfold getDaysUntilWeekday
  split
  · next hz => constructor
                 <;> omega
  · next hz => omega

/-- Witness for claim C8 at now 0 and target weekday 3. -/
theorem c8_days_until_weekday_witness :
    (0 : Int) ≤ 3 ∧ (3 : Int) < 7 ∧
      ((1 ≤ getDaysUntilWeekday 0 3 ∧ getDaysUntilWeekday 0 3 ≤ 7) ∧
        ((3 : Int) = getDay 0 → getDaysUntilWeekday 0 3 = 7) ∧
        ((3 : Int) ≠ getDay 0 →
          getDaysUntilWeekday 0 3 = (3 - getDay 0 + 7) % 7)) :=
  ⟨by decide, by decide, c8_days_until_weekday 0 3 (by decide) (by decide)⟩

/-- Claim C9: preprocessing is idempotent; running the preprocessor on
the newline-joined sequence it produced changes nothing. -/
theorem c9_preprocess_idempotent (text : List Char) :
    preprocessText (List.intercalate ("\n".toList) (preprocessText text)) =
      preprocessText text := by
  rw [preprocess_structure text]
  by_cases h : 3 < (trimChars (collapseWs (cleanChars text))).length
  · rw [if_pos h]
    have hj : List.intercalate ("\n".toList) [trimChars (collapseWs (cleanChars text))] =
        trimChars (collapseWs (cleanChars text)) := by
      simp [List.intercalate]
    rw [hj, preprocess_structure]
    have hwl : ∀ c ∈ trimChars (collapseWs (cleanChars text)), whitelisted c = true := by
      intro c hc
      rcases collapseWs_chars (trimChars_subset hc) with rfl | hc2
      · decide
      · exact cleanChars_whitelisted c hc2
    rw [cleanChars_eq_self hwl,
      collapseWs_eq_self _ (trimChars_spaced (collapseWs_spaced _)),
      trimChars_idempotent, if_pos h]
  · rw [if_neg h]
    rfl

/-- Claim C10: the classified line "read chapter 3-5 for history" has no
relative keyword and no "in N days" phrase, yet the dash date pattern
matches the chapter range "3-5", so whenever March 5 of the current year
is strictly future the due date becomes that calendar date instead of
the seven-day default. -/
theorem c10_dash_range (now : Int) (h : now < mkDateMs (getFullYear now) 2 5) :
    isTaskLine ("read chapter 3-5 for history".toList) = true ∧
      extractDueDate ("read chapter 3-5 for history".toList) now =
        mkDateMs (getFullYear now) 2 5 := by
  refine ⟨by decide, ?_⟩
  have e1 : extractDueDate ("read chapter 3-5 for history".toList) now =
      (match (if now < mkDateMs (getFullYear now) 2 5
              then some (mkDateMs (getFullYear now) 2 5)
              else (none : Option Int)) with
       | some dt => dt
       | none => now + 7 * msPerDay) := rfl
  rw [e1, if_pos h]

/-- Witness for claim C10 at now January 15, 2026. -/
theorem c10_dash_range_witness :
    mkDateMs 2026 0 15 < mkDateMs (getFullYear (mkDateMs 2026 0 15)) 2 5 ∧
      (isTaskLine ("read chapter 3-5 for history".toList) = true ∧
        extractDueDate ("read chapter 3-5 for history".toList) (mkDateMs 2026 0 15) =
          mkDateMs (getFullYear (mkDateMs 2026 0 15)) 2 5) :=
  ⟨by decide, c10_dash_range (mkDateMs 2026 0 15) (by decide)⟩

end TaskParser
